import Mathlib

/-
Verification of the video-assembly pipeline of the reddit video repository.

Shallow embedding of the timing logic of src/builder.py (render_video,
_render_video_standard, _render_video_with_script, concat_audio,
ProgressFfmpeg) and src/factory/__init__.py
(RedditVideoFactory._select_comments_for_duration), over exact rational
arithmetic.  Durations are rationals; the structural equalities proved here
are exactly the equalities the Python code computes (the accumulated start
value is reused verbatim, sums are formed by repeated addition).
-/

/-- One overlay element as configured by the builder: the two arguments the
code hands to the enable expression (the window start `t` and `t + dur`), and
whether the colorchannelmixer opacity filter is applied (the code applies it
iff the image index is not 0, i.e. for every card after the title). -/
structure OverlaySpec where
  start : ℚ
  stop : ℚ
  applyOpacity : Bool
  deriving Repr, DecidableEq

/-- Overlay loop of `_render_video_standard` (src/builder.py lines 186-204):
`t = 0.0`; for image `i` with duration `d` it overlays with
`enable=between(t, t, t+d)`, opacity applied iff `i != 0`, then `t += d`. -/
def overlaysStdGo (t : ℚ) (i : ℕ) : List ℚ → List OverlaySpec
  | [] => []
  | d :: ds => ⟨t, t + d, i != 0⟩ :: overlaysStdGo (t + d) (i + 1) ds

/-- Overlay windows produced by the standard (inline-argument) strategy. -/
def overlaysStd (ds : List ℚ) : List OverlaySpec := overlaysStdGo 0 0 ds

/-- Overlay loop of `_render_video_with_script` (src/builder.py lines 285-314):
`t = 0.0`; for image `i` it writes a filter line with
`start_time = t`, `end_time = t + dur`, a colorchannelmixer line iff `i != 0`,
then `t += dur`. -/
def overlaysScriptGo (t : ℚ) (i : ℕ) : List ℚ → List OverlaySpec
  | [] => []
  | d :: ds => ⟨t, t + d, i != 0⟩ :: overlaysScriptGo (t + d) (i + 1) ds

/-- Overlay windows produced by the script-file strategy. -/
def overlaysScript (ds : List ℚ) : List OverlaySpec := overlaysScriptGo 0 0 ds

/-- Declared total length in `_render_video_standard` (line 211):
`total_len = max(0.1, sum(max(0.0, d) for d in image_durations))`;
this value is passed to the encoder as the `-t` output cap. -/
def totalLenStd (ds : List ℚ) : ℚ := max (1/10) ((ds.map (fun d => max 0 d)).sum)

/-- Declared total length in `_render_video_with_script` (line 276): the same
formula `max(0.1, sum(max(0.0, d)))`, passed as `-t str(total_len)`. -/
def totalLenScript (ds : List ℚ) : ℚ := max (1/10) ((ds.map (fun d => max 0 d)).sum)

/-- The data of one encoder invocation that `render_video` prepares: which
strategy ran, the overlay windows it configures, and the `-t` output cap. -/
structure RenderPlan where
  useScript : Bool
  overlays : List OverlaySpec
  cap : ℚ
  deriving Repr, DecidableEq

/-- Fixed strategy threshold `USE_FILTER_SCRIPT_THRESHOLD = 50`
(src/builder.py line 156). -/
def USE_FILTER_SCRIPT_THRESHOLD : ℕ := 50

/-- Embedding of `render_video` (src/builder.py lines 127-170): the two
precondition checks raise (modelled as `Except.error`, carrying the message of
the `ValueError`) before any encoder invocation exists; otherwise
`use_filter_script = len(image_paths) > USE_FILTER_SCRIPT_THRESHOLD` selects
the strategy and the chosen helper builds the overlay windows and the cap. -/
def renderVideo (imagePaths : List String) (imageDurations : List ℚ) :
    Except String RenderPlan :=
  if imagePaths.length ≠ imageDurations.length then
    .error "image_paths and image_durations mismatch"
  else if imagePaths.length = 0 then
    .error "No images provided for video rendering"
  else if USE_FILTER_SCRIPT_THRESHOLD < imagePaths.length then
    .ok ⟨true, overlaysScript imageDurations, totalLenScript imageDurations⟩
  else
    .ok ⟨false, overlaysStd imageDurations, totalLenStd imageDurations⟩

/-- Cap recorded in a successful render plan, if any. -/
def renderCap (r : Except String RenderPlan) : Option ℚ :=
  match r with
  | .ok p => some p.cap
  | .error _ => none

/-- Embedding of `concat_audio` (src/builder.py lines 92-115): an empty path
list raises a `ValueError` before the ffmpeg process is started (modelled as
`Except.error`; only the `.ok` branch stands for a completed ffmpeg run);
otherwise it returns `sum(max(0.0, probe_duration(p)) for p in audio_paths)`.
The duration probe is abstracted as an oracle `probe`. -/
def concatAudio (probe : String → ℚ) (audioPaths : List String) :
    Except String ℚ :=
  if audioPaths.isEmpty then
    .error "No audio paths provided for concatenation"
  else
    .ok ((audioPaths.map (fun p => max 0 (probe p))).sum)

/-- Semantics of the ffmpeg expression `between(x, lo, hi)` that both
rendering strategies place in their `enable=` options: per the ffmpeg
expression documentation it returns 1 iff `x` is greater than or equal to
`lo` and less than or equal to `hi` — inclusive at both endpoints.  This is
the meaning of the strings the builder emits; ffmpeg itself is an external
collaborator of the repository. -/
def ffmpegBetween (x lo hi : ℚ) : Bool := decide (lo ≤ x) && decide (x ≤ hi)

/-- Whether the overlay configured by `w` is enabled at time `t`: the builder
emits `enable=between(t, start, stop)` for the window. -/
def enableAt (w : OverlaySpec) (t : ℚ) : Bool := ffmpegBetween t w.start w.stop

/- Basic lemmas about the overlay windows. -/

lemma overlaysScriptGo_eq_std : ∀ (ds : List ℚ) (t : ℚ) (i : ℕ),
    overlaysScriptGo t i ds = overlaysStdGo t i ds
  | [], _, _ => rfl
  | d :: ds, t, i => by
    simp only [overlaysScriptGo, overlaysStdGo,
      overlaysScriptGo_eq_std ds (t + d) (i + 1)]

lemma overlaysScript_eq_std (ds : List ℚ) : overlaysScript ds = overlaysStd ds :=
  overlaysScriptGo_eq_std ds 0 0

lemma overlaysStdGo_length : ∀ (ds : List ℚ) (t : ℚ) (i : ℕ),
    (overlaysStdGo t i ds).length = ds.length
  | [], _, _ => rfl
  | d :: ds, t, i => by
    simp only [overlaysStdGo, List.length_cons, overlaysStdGo_length ds (t + d) (i + 1)]

/-- Closed form for the j-th overlay produced by the standard loop: its start
is the accumulator plus the sum of the first j durations. -/
lemma overlaysStdGo_getElem? : ∀ (ds : List ℚ) (t : ℚ) (i j : ℕ),
    (overlaysStdGo t i ds)[j]? =
      if j < ds.length then
        some ⟨t + (ds.take j).sum, t + (ds.take (j + 1)).sum, (i + j) != 0⟩
      else none
  | [], t, i, j => by simp [overlaysStdGo]
  | d :: ds, t, i, 0 => by simp [overlaysStdGo]
  | d :: ds, t, i, j + 1 => by
    have ih := overlaysStdGo_getElem? ds (t + d) (i + 1) j
    simp only [overlaysStdGo, List.getElem?_cons_succ, ih, List.length_cons,
      List.take_succ_cons, List.sum_cons]
    by_cases h : j < ds.length
    · rw [if_pos h, if_pos (by omega : j + 1 < ds.length + 1)]
      have h1 : t + d + (ds.take j).sum = t + (d + (ds.take j).sum) := by ring
      have h2 : t + d + (ds.take (j + 1)).sum = t + (d + (ds.take (j + 1)).sum) := by
        ring
      have h3 : i + 1 + j = i + (j + 1) := by omega
      rw [h1, h2, h3]
    · rw [if_neg h, if_neg (by omega : ¬ (j + 1 < ds.length + 1))]

/- Embedding of RedditVideoFactory._select_comments_for_duration
   (src/factory/__init__.py lines 54-128). -/

/-- Comment record from src/reddit_fetcher.py (`@dataclass RedditComment`). -/
structure RedditComment where
  author : String
  body : String
  score : Int
  deriving Repr, DecidableEq

/-- Result of the selection loop: the selected comments, the kept mp3 files
(file `i` stands for the path `f"{i}.mp3"` built from the enumeration index),
and the mp3 files that were created and then removed by `os.remove`. -/
structure SelectResult where
  selected : List RedditComment
  mp3Paths : List ℕ
  removed : List ℕ
  deriving Repr, DecidableEq

/-- Loop body of `_select_comments_for_duration`.  The combined outcome of
`tts_to_mp3` plus `probe_duration` for iteration `i` is abstracted as
`oracle i`: `none` when either raises (the `except` branch logs and
`continue`s), `some d` when synthesis succeeds with probed duration `d`.
Faithful to the source: on success, if `cumulative + d > target` then either
this is the first acceptance (selected empty: keep it and `break`) or the
file is removed and the loop `break`s; otherwise the comment is accepted and
`cumulative += d`. -/
def selectGo (oracle : ℕ → Option ℚ) (target : ℚ) :
    List RedditComment → ℕ → ℚ → List RedditComment → List ℕ → SelectResult
  | [], _, _, sel, paths => ⟨sel, paths, []⟩
  | c :: cs, i, cum, sel, paths =>
    match oracle i with
    | none => selectGo oracle target cs (i + 1) cum sel paths
    | some d =>
      if target < cum + d then
        if sel.isEmpty then ⟨sel ++ [c], paths ++ [i], []⟩
        else ⟨sel, paths, [i]⟩
      else
        selectGo oracle target cs (i + 1) (cum + d) (sel ++ [c]) (paths ++ [i])

/-- Embedding of `_select_comments_for_duration`: the loop starts at
enumeration index 0 with `cumulative_duration = 0.0` and empty accumulators. -/
def selectCommentsForDuration (oracle : ℕ → Option ℚ) (target : ℚ)
    (comments : List RedditComment) : SelectResult :=
  selectGo oracle target comments 0 0 [] []

/-- Sum of the probed durations of the returned clips (the value
`probe_duration` reported for each kept mp3 file). -/
def clipSum (oracle : ℕ → Option ℚ) (paths : List ℕ) : ℚ :=
  (paths.map (fun i => (oracle i).getD 0)).sum

/- Embedding of ProgressFfmpeg (src/builder.py lines 28-66). -/

/-- Clamped duration stored by `ProgressFfmpeg.__init__`:
`self.duration = max(0.001, float(duration_seconds))`. -/
def progressDuration (durationSeconds : ℚ) : ℚ := max (1/1000) durationSeconds

/-- Polling loop of `ProgressFfmpeg.run`: for each successfully parsed
elapsed-seconds value `s` it computes `p = max(self._last, min(1.0, s /
self.duration))`, stores `p` in `_last` and reports `p` to the callback.
The function returns the list of reported values for a given sequence of
parsed poll values. -/
def reportsGo (dur : ℚ) : ℚ → List ℚ → List ℚ
  | _, [] => []
  | last, s :: ss =>
    max last (min 1 (s / dur)) :: reportsGo dur (max last (min 1 (s / dur))) ss

/-- Reported progress values across a poll sequence, starting from
`self._last = 0.0` with the clamped duration. -/
def progressReports (durationSeconds : ℚ) (polls : List ℚ) : List ℚ :=
  reportsGo (progressDuration durationSeconds) 0 polls

/- Embedding of the render_video call interface for the word-caption stage. -/

/-- Parameter names of `builder.render_video`
(src/builder.py lines 127-139), in order. -/
def renderVideoParams : List String :=
  ["background_mp4", "out_mp4", "audio_mp3", "image_paths", "image_durations",
   "W", "H", "screenshot_width", "opacity", "bg_audio_mp3", "bg_audio_volume"]

/-- Keyword-argument names of the `render_video(...)` call in
`RedditVideoFactory.make_from_url` (src/factory/__init__.py lines 416-429). -/
def factoryRenderVideoKwargs : List String :=
  ["background_mp4", "out_mp4", "audio_mp3", "image_paths", "image_durations",
   "W", "H", "screenshot_width", "opacity", "bg_audio_mp3", "bg_audio_volume",
   "word_captions_filter"]

/- Helper lemmas on the declared total length. -/

lemma map_max_zero_eq (ds : List ℚ) (h1 : ∀ d ∈ ds, 0 ≤ d) :
    ds.map (fun d => max 0 d) = ds := by
  induction ds with
  | nil => rfl
  | cons d tl ih =>
    simp only [List.map_cons, List.cons.injEq]
    exact ⟨max_eq_right (h1 d (List.mem_cons_self d tl)),
      ih fun a ha => h1 a (List.mem_cons_of_mem d ha)⟩

lemma totalLenScript_eq_std (ds : List ℚ) : totalLenScript ds = totalLenStd ds := rfl

lemma totalLen_eq_sum (ds : List ℚ) (h1 : ∀ d ∈ ds, 0 ≤ d)
    (h2 : 1/10 ≤ ds.sum) : totalLenStd ds = ds.sum := by
  unfold totalLenStd
  rw [map_max_zero_eq ds h1]
  exact max_eq_right h2

/-- C1: for every duration list handed to render_video, both strategies build
the same overlay windows; the first window starts at 0; each subsequent window
starts exactly at the previous window's start plus its duration (the same
accumulated value is reused, so consecutive windows abut exactly); and the
declared total duration equals the sum of the durations whenever all durations
are nonnegative and their sum is at least 0.1 (the code clamps the declared
total to `max(0.1, sum(max(0, d)))`, so it differs from the raw sum below that
floor — see the counterexample). -/
theorem overlay_partition_invariant (ds : List ℚ) :
    overlaysScript ds = overlaysStd ds
    ∧ (∀ w, (overlaysStd ds)[0]? = some w → w.start = 0)
    ∧ (∀ j w w2, (overlaysStd ds)[j]? = some w →
        (overlaysStd ds)[j + 1]? = some w2 →
        w2.start = w.stop ∧ ∀ d, ds[j]? = some d → w2.start = w.start + d)
    ∧ ((∀ d ∈ ds, 0 ≤ d) → 1/10 ≤ ds.sum →
        totalLenStd ds = ds.sum ∧ totalLenScript ds = ds.sum) := by
  refine ⟨overlaysScript_eq_std ds, ?_, ?_, ?_⟩
  · intro w hw
    rw [overlaysStd, overlaysStdGo_getElem?] at hw
    by_cases h : 0 < ds.length
    · rw [if_pos h] at hw
      simp only [Option.some.injEq] at hw
      rw [← hw]
      simp
    · rw [if_neg h] at hw
      exact absurd hw (by simp)
  · intro j w w2 hw hw2
    rw [overlaysStd, overlaysStdGo_getElem?] at hw hw2
    by_cases h : j + 1 < ds.length
    · rw [if_pos (by omega : j < ds.length)] at hw
      rw [if_pos h] at hw2
      simp only [Option.some.injEq] at hw hw2
      subst hw hw2
      refine ⟨by simp, ?_⟩
      intro d hd
      have ht : ds.take (j + 1) = ds.take j ++ [d] := by
        rw [List.take_succ, hd]
        rfl
      simp only [ht, List.sum_append, List.sum_cons, List.sum_nil]
      ring
    · rw [if_neg h] at hw2
      exact absurd hw2 (by simp)
  · intro h1 h2
    exact ⟨totalLen_eq_sum ds h1 h2, totalLen_eq_sum ds h1 h2⟩

/-- C1 witness: the scenario durations [2.0, 3.0] satisfy the hypotheses of the
amended total-duration clause, the declared total is the sum 5.0, and the
windows are [0,2) start 0 and [2,5) start 2 with the title at full opacity. -/
theorem overlay_partition_invariant_witness :
    ((∀ d ∈ ([2, 3] : List ℚ), 0 ≤ d) ∧ 1/10 ≤ ([2, 3] : List ℚ).sum)
    ∧ (totalLenStd [2, 3] = ([2, 3] : List ℚ).sum
        ∧ totalLenScript [2, 3] = ([2, 3] : List ℚ).sum)
    ∧ overlaysStd [2, 3] = [⟨0, 2, false⟩, ⟨2, 5, true⟩]
    ∧ ([2, 3] : List ℚ).sum = 5 := by
  refine ⟨⟨by decide, by norm_num⟩, ?_, by norm_num [overlaysStd, overlaysStdGo],
    by norm_num⟩
  exact (overlay_partition_invariant [2, 3]).2.2.2 (by decide) (by norm_num)

/-- C1 counterexample: for the duration list [0.05] the declared total duration
is the clamped value 0.1, not the sum 0.05, under both strategies; so the
claim's clause that the declared total always equals the sum of the durations
is false as stated. -/
theorem overlay_total_clamp_counterexample :
    totalLenStd [1/20] ≠ ([1/20] : List ℚ).sum
    ∧ totalLenScript [1/20] ≠ ([1/20] : List ℚ).sum := by
  constructor <;> norm_num [totalLenStd, totalLenScript]

/-- C2 (amended): for every valid render job, both branches of render_video
pass the same output cap `-t total_len` where `total_len = max(0.1,
sum(max(0, d)))` is computed by the identical formula in the standard and the
script helper; the cap is a function of the duration list alone (independent
of the background/audio stream lengths, which do not enter the formula), and
it equals the sum of the image durations whenever all durations are
nonnegative and their sum is at least 0.1. -/
theorem encoder_cap_identical (paths : List String) (ds : List ℚ)
    (hlen : paths.length = ds.length) (hne : paths ≠ []) :
    renderCap (renderVideo paths ds) = some (totalLenStd ds)
    ∧ renderCap (renderVideo paths ds) = some (totalLenScript ds)
    ∧ ((∀ d ∈ ds, 0 ≤ d) → 1/10 ≤ ds.sum →
        renderCap (renderVideo paths ds) = some ds.sum) := by
  have hlen2 : ¬ paths.length ≠ ds.length := by simp [hlen]
  have hne2 : ¬ paths.length = 0 := by
    simpa [List.length_eq_zero] using hne
  unfold renderVideo
  rw [if_neg hlen2, if_neg hne2]
  by_cases h : USE_FILTER_SCRIPT_THRESHOLD < paths.length
  · rw [if_pos h]
    exact ⟨rfl, rfl, fun h1 h2 => by
      simp only [renderCap, totalLenScript_eq_std, totalLen_eq_sum ds h1 h2]⟩
  · rw [if_neg h]
    exact ⟨rfl, rfl, fun h1 h2 => by
      simp only [renderCap, totalLen_eq_sum ds h1 h2]⟩

/-- C2 witness: a concrete valid job (one image, duration 3) where the cap
recorded in the plan is the declared total and equals the sum of durations. -/
theorem encoder_cap_identical_witness :
    ((["img0"] : List String).length = ([3] : List ℚ).length
      ∧ (["img0"] : List String) ≠ []
      ∧ (∀ d ∈ ([3] : List ℚ), 0 ≤ d) ∧ 1/10 ≤ ([3] : List ℚ).sum)
    ∧ renderCap (renderVideo ["img0"] [3]) = some (([3] : List ℚ).sum) := by
  refine ⟨⟨rfl, by decide, by decide, by norm_num⟩, ?_⟩
  exact (encoder_cap_identical ["img0"] [3] rfl (by decide)).2.2 (by decide)
    (by norm_num)

/-- C2 counterexample: for the job with one image of duration 0.05 the cap
recorded in the plan is the clamped 0.1, not the sum 0.05 of the image
durations; so the claim's parenthetical "the sum of the image durations" is
false as stated. -/
theorem encoder_cap_clamp_counterexample :
    renderCap (renderVideo ["img0"] [1/20]) = some (1/10)
    ∧ (1/10 : ℚ) ≠ ([1/20] : List ℚ).sum := by
  constructor
  · norm_num [renderVideo, renderCap, USE_FILTER_SCRIPT_THRESHOLD, totalLenStd]
  · norm_num

/-- C3: render_video uses the script-file strategy exactly when the image
count exceeds USE_FILTER_SCRIPT_THRESHOLD = 50 and the inline strategy
otherwise, and the two strategies compute identical timing data: the same
overlay windows in the same order (the script loop equals the standard loop),
the same declared output cap, and the opacity flag is off exactly for the
first (title) image and on for every later image. -/
theorem strategy_selection_equivalence (paths : List String) (ds : List ℚ)
    (hlen : paths.length = ds.length) (hne : paths ≠ []) :
    renderVideo paths ds =
      .ok ⟨decide (USE_FILTER_SCRIPT_THRESHOLD < paths.length),
           overlaysStd ds, totalLenStd ds⟩
    ∧ overlaysScript ds = overlaysStd ds
    ∧ totalLenScript ds = totalLenStd ds
    ∧ (∀ j w, (overlaysStd ds)[j]? = some w → w.applyOpacity = (j != 0)) := by
  have hlen2 : ¬ paths.length ≠ ds.length := by simp [hlen]
  have hne2 : ¬ paths.length = 0 := by
    simpa [List.length_eq_zero] using hne
  refine ⟨?_, overlaysScript_eq_std ds, totalLenScript_eq_std ds, ?_⟩
  · unfold renderVideo
    rw [if_neg hlen2, if_neg hne2]
    by_cases h : USE_FILTER_SCRIPT_THRESHOLD < paths.length
    · rw [if_pos h]
      simp [h, overlaysScript_eq_std, totalLenScript_eq_std]
    · rw [if_neg h]
      simp [h]
  · intro j w hw
    rw [overlaysStd, overlaysStdGo_getElem?] at hw
    by_cases h : j < ds.length
    · rw [if_pos h] at hw
      simp only [Option.some.injEq] at hw
      rw [← hw]
      simp
    · rw [if_neg h] at hw
      exact absurd hw (by simp)

/-- C3 witness: a valid job with one image selects the inline strategy
(count 1 is not above the threshold) with the standard windows and cap. -/
theorem strategy_selection_equivalence_witness :
    ((["img0"] : List String).length = ([3] : List ℚ).length
      ∧ (["img0"] : List String) ≠ [])
    ∧ renderVideo ["img0"] [3] =
        .ok ⟨decide (USE_FILTER_SCRIPT_THRESHOLD < (["img0"] : List String).length),
             overlaysStd [3], totalLenStd [3]⟩ := by
  refine ⟨⟨rfl, by decide⟩, ?_⟩
  exact (strategy_selection_equivalence ["img0"] [3] rfl (by decide)).1

/-- C6 failing input, evaluated on the code: with durations [2.0, 3.0] the
builder emits enable conditions between(t,0,2) and between(t,2,5); ffmpeg's
between is inclusive at both endpoints, so at the boundary instant t = 2 both
consecutive overlays are enabled (a double match), the first window's
condition is not false at t = start + duration, and a zero-duration image
(durations [0]) is enabled at t = 0 rather than never visible. -/
theorem overlay_boundary_inclusive_bug :
    ((overlaysStd [2, 3]).map (fun w => enableAt w 2) = [true, true])
    ∧ ((overlaysStd [2, 3]).map (fun w => enableAt w 5) = [false, true])
    ∧ ((overlaysStd [0]).map (fun w => enableAt w 0) = [true]) := by
  refine ⟨?_, ?_, ?_⟩ <;>
    norm_num [overlaysStd, overlaysStdGo, enableAt, ffmpegBetween]

/-- C7: precondition violations are rejected before any external process is
invoked: a length mismatch or an empty image list makes render_video return
the corresponding error (the embedding carries an encoder invocation only in
the .ok branch), and an empty audio list makes concat_audio return its error
without an ffmpeg run. -/
theorem precondition_fail_fast (paths : List String) (ds : List ℚ)
    (probe : String → ℚ) (audioPaths : List String) :
    (paths.length ≠ ds.length →
      renderVideo paths ds = .error "image_paths and image_durations mismatch")
    ∧ (paths = [] →
      renderVideo paths ds = .error "image_paths and image_durations mismatch"
      ∨ renderVideo paths ds = .error "No images provided for video rendering")
    ∧ (audioPaths = [] →
      concatAudio probe audioPaths =
        .error "No audio paths provided for concatenation") := by
  refine ⟨?_, ?_, ?_⟩
  · intro h
    unfold renderVideo
    rw [if_pos h]
  · intro h
    subst h
    by_cases hds : ds = []
    · subst hds
      right
      rfl
    · left
      unfold renderVideo
      rw [if_pos (by simpa [eq_comm, List.length_eq_zero] using hds)]
  · intro h
    subst h
    rfl

/-- C7 witness: the scenario with 3 images and 2 durations is rejected with
the mismatch error, and an empty audio list is rejected by concat_audio. -/
theorem precondition_fail_fast_witness :
    ((["a", "b", "c"] : List String).length ≠ ([1, 2] : List ℚ).length
      ∧ (([] : List String) = []))
    ∧ renderVideo ["a", "b", "c"] [1, 2] =
        .error "image_paths and image_durations mismatch"
    ∧ concatAudio (fun _ => 0) [] =
        .error "No audio paths provided for concatenation" := by
  refine ⟨⟨by decide, rfl⟩, ?_, ?_⟩
  · exact (precondition_fail_fast ["a", "b", "c"] [1, 2] (fun _ => 0) []).1
      (by decide)
  · exact (precondition_fail_fast ["a", "b", "c"] [1, 2] (fun _ => 0) []).2.2 rfl

/- Lemmas about the selection loop. -/

lemma clipSum_append (oracle : ℕ → Option ℚ) (paths : List ℕ) (i : ℕ) :
    clipSum oracle (paths ++ [i]) = clipSum oracle paths + (oracle i).getD 0 := by
  simp [clipSum, List.map_append, List.sum_append]

lemma selectGo_pair (oracle : ℕ → Option ℚ) (target : ℚ) :
    ∀ (cs : List RedditComment) (i : ℕ) (cum : ℚ)
      (sel : List RedditComment) (paths : List ℕ),
      sel.length = paths.length →
      (selectGo oracle target cs i cum sel paths).selected.length =
        (selectGo oracle target cs i cum sel paths).mp3Paths.length
  | [], _, _, _, _, h => h
  | c :: cs, i, cum, sel, paths, h => by
    cases horacle : oracle i with
    | none =>
      simp only [selectGo, horacle]
      exact selectGo_pair oracle target cs (i + 1) cum sel paths h
    | some d =>
      simp only [selectGo, horacle]
      by_cases hover : target < cum + d
      · rw [if_pos hover]
        by_cases hsel : sel.isEmpty
        · simp [hsel, h]
        · simp [hsel, h]
      · rw [if_neg hover]
        exact selectGo_pair oracle target cs (i + 1) (cum + d)
          (sel ++ [c]) (paths ++ [i]) (by simp [h])

lemma selectGo_nonempty (oracle : ℕ → Option ℚ) (target : ℚ) :
    ∀ (cs : List RedditComment) (i : ℕ) (cum : ℚ)
      (sel : List RedditComment) (paths : List ℕ),
      (sel ≠ [] ∨ ∃ j, j < cs.length ∧ (oracle (i + j)).isSome) →
      (selectGo oracle target cs i cum sel paths).selected ≠ []
  | [], i, cum, sel, paths, h => by
    simp only [selectGo]
    rcases h with h | ⟨j, hj, _⟩
    · exact h
    · simp at hj
  | c :: cs, i, cum, sel, paths, h => by
    cases horacle : oracle i with
    | none =>
      simp only [selectGo, horacle]
      refine selectGo_nonempty oracle target cs (i + 1) cum sel paths ?_
      rcases h with h | ⟨j, hj, hsome⟩
      · exact Or.inl h
      · cases j with
        | zero =>
          rw [Nat.add_zero] at hsome
          rw [horacle] at hsome
          simp at hsome
        | succ j =>
          refine Or.inr ⟨j, by simpa using hj, ?_⟩
          rwa [show i + 1 + j = i + (j + 1) by omega]
    | some d =>
      simp only [selectGo, horacle]
      by_cases hover : target < cum + d
      · rw [if_pos hover]
        by_cases hsel : sel.isEmpty
        · simp [hsel]
        · simp only [hsel, Bool.false_eq_true, if_false]
          simpa [List.isEmpty_iff] using hsel
      · rw [if_neg hover]
        exact selectGo_nonempty oracle target cs (i + 1) (cum + d)
          (sel ++ [c]) (paths ++ [i]) (Or.inl (by simp))

lemma selectGo_budget (oracle : ℕ → Option ℚ) (target : ℚ) :
    ∀ (cs : List RedditComment) (i : ℕ) (cum : ℚ)
      (sel : List RedditComment) (paths : List ℕ),
      clipSum oracle paths = cum →
      (sel = [] ∨ cum ≤ target) →
      2 ≤ (selectGo oracle target cs i cum sel paths).selected.length →
      clipSum oracle (selectGo oracle target cs i cum sel paths).mp3Paths ≤ target
  | [], i, cum, sel, paths, hsum, hinv, hlen => by
    simp only [selectGo] at hlen ⊢
    rcases hinv with hinv | hinv
    · subst hinv
      simp at hlen
    · rwa [hsum]
  | c :: cs, i, cum, sel, paths, hsum, hinv, hlen => by
    cases horacle : oracle i with
    | none =>
      simp only [selectGo, horacle] at hlen ⊢
      exact selectGo_budget oracle target cs (i + 1) cum sel paths hsum hinv hlen
    | some d =>
      simp only [selectGo, horacle] at hlen ⊢
      by_cases hover : target < cum + d
      · rw [if_pos hover] at hlen ⊢
        by_cases hsel : sel.isEmpty
        · rw [if_pos hsel] at hlen
          have : sel = [] := by simpa [List.isEmpty_iff] using hsel
          subst this
          simp at hlen
        · rw [if_neg hsel] at hlen ⊢
          have hne : sel ≠ [] := by simpa [List.isEmpty_iff] using hsel
          rcases hinv with hinv | hinv
          · exact absurd hinv hne
          · rwa [hsum]
      · rw [if_neg hover] at hlen ⊢
        refine selectGo_budget oracle target cs (i + 1) (cum + d)
          (sel ++ [c]) (paths ++ [i]) ?_ (Or.inr (by linarith)) hlen
        rw [clipSum_append, hsum, horacle]
        rfl

lemma selectGo_all_fail (oracle : ℕ → Option ℚ) (target : ℚ) :
    ∀ (cs : List RedditComment) (i : ℕ) (cum : ℚ)
      (sel : List RedditComment) (paths : List ℕ),
      (∀ j, j < cs.length → oracle (i + j) = none) →
      selectGo oracle target cs i cum sel paths = ⟨sel, paths, []⟩
  | [], _, _, _, _, _ => rfl
  | c :: cs, i, cum, sel, paths, h => by
    have h0 : oracle i = none := by simpa using h 0 (by simp)
    simp only [selectGo, h0]
    refine selectGo_all_fail oracle target cs (i + 1) cum sel paths ?_
    intro j hj
    have := h (j + 1) (by simpa using hj)
    rwa [show i + 1 + j = i + (j + 1) by omega]

/-- C4: for a non-empty comment list, whenever at least one comment's combined
TTS synthesis and probe succeeds (the oracle is some at some scanned index),
the selection returns a non-empty selected list and keeps the two returned
lists positionally paired (equal lengths); and for a single-comment input
whose synthesis succeeds, a zero or negative target still yields that one
comment (the first-segment guarantee). -/
theorem select_nonempty_and_paired (oracle : ℕ → Option ℚ) (target : ℚ)
    (comments : List RedditComment)
    (hne : comments ≠ [])
    (hsucc : ∃ i, i < comments.length ∧ (oracle i).isSome) :
    (selectCommentsForDuration oracle target comments).selected ≠ []
    ∧ (selectCommentsForDuration oracle target comments).selected.length =
        (selectCommentsForDuration oracle target comments).mp3Paths.length
    ∧ (∀ c : RedditComment, (oracle 0).isSome → target ≤ 0 →
        (selectCommentsForDuration oracle target [c]).selected = [c]) := by
  refine ⟨?_, selectGo_pair oracle target comments 0 0 [] [] rfl, ?_⟩
  · refine selectGo_nonempty oracle target comments 0 0 [] [] (Or.inr ?_)
    obtain ⟨i, hi, hsome⟩ := hsucc
    exact ⟨i, hi, by simpa using hsome⟩
  · intro c hc htarget
    obtain ⟨d, hd⟩ := Option.isSome_iff_exists.mp hc
    simp only [selectCommentsForDuration, selectGo, hd]
    by_cases hover : target < 0 + d
    · rw [if_pos hover]
      simp
    · rw [if_neg hover]
      simp [selectGo]

/-- C4 witness: one comment whose synthesis succeeds with duration 3 against
budget 10 yields a non-empty selection. -/
theorem select_nonempty_and_paired_witness :
    (([⟨"u0", "hello", 5⟩] : List RedditComment) ≠ []
      ∧ ((fun i => if i = 0 then some (3 : ℚ) else none) 0).isSome)
    ∧ (selectCommentsForDuration (fun i => if i = 0 then some (3 : ℚ) else none)
        10 [⟨"u0", "hello", 5⟩]).selected ≠ [] := by
  refine ⟨⟨by decide, by decide⟩, ?_⟩
  exact (select_nonempty_and_paired (fun i => if i = 0 then some (3 : ℚ) else none)
    10 [⟨"u0", "hello", 5⟩] (by decide) ⟨0, by decide, by decide⟩).1

/-- C5: with a nonnegative budget (guaranteed at the call site, which only
calls with remaining_duration > 0), the sum of the probed durations of the
returned clips never exceeds the target except possibly when the returned
list is the single first accepted segment; and once a successfully
synthesized segment would overflow the budget after at least one acceptance,
the loop returns the accumulators unchanged with that segment's mp3 file
removed and does not scan any further segment (the remaining comment list
does not appear in the result). -/
theorem select_budget_bound (oracle : ℕ → Option ℚ) (target : ℚ)
    (comments : List RedditComment) (htarget : 0 ≤ target) :
    (clipSum oracle
        (selectCommentsForDuration oracle target comments).mp3Paths ≤ target
      ∨ (selectCommentsForDuration oracle target comments).selected.length = 1)
    ∧ (∀ (c : RedditComment) (cs : List RedditComment) (i : ℕ) (cum : ℚ)
        (sel : List RedditComment) (paths : List ℕ) (d : ℚ),
        sel ≠ [] → oracle i = some d → target < cum + d →
        selectGo oracle target (c :: cs) i cum sel paths = ⟨sel, paths, [i]⟩) := by
  constructor
  · simp only [selectCommentsForDuration]
    by_cases h2 : 2 ≤ (selectGo oracle target comments 0 0 [] []).selected.length
    · exact Or.inl (selectGo_budget oracle target comments 0 0 [] [] rfl
        (Or.inl rfl) h2)
    · have hlen := selectGo_pair oracle target comments 0 0 [] [] rfl
      rcases (by omega :
          (selectGo oracle target comments 0 0 [] []).selected.length = 0
          ∨ (selectGo oracle target comments 0 0 [] []).selected.length = 1)
        with h0 | h1
      · left
        have hnil : (selectGo oracle target comments 0 0 [] []).mp3Paths = [] :=
          List.length_eq_zero.mp (by omega)
        rw [hnil]
        simpa [clipSum] using htarget
      · exact Or.inr h1
  · intro c cs i cum sel paths d hsel hor hover
    have hisel : sel.isEmpty = false := by simpa [List.isEmpty_iff] using hsel
    simp only [selectGo, hor, if_pos hover, hisel]
    simp

/-- C5 witness: with budget 10 and two comments of duration 2 each followed by
a failing one, the probed durations of the kept clips stay within the budget. -/
theorem select_budget_bound_witness :
    (0 : ℚ) ≤ 10
    ∧ (clipSum (fun i => if i < 2 then some (2 : ℚ) else none)
        (selectCommentsForDuration (fun i => if i < 2 then some (2 : ℚ) else none)
          10 [⟨"a", "x", 1⟩, ⟨"b", "y", 2⟩, ⟨"c", "z", 3⟩]).mp3Paths ≤ 10
      ∨ (selectCommentsForDuration (fun i => if i < 2 then some (2 : ℚ) else none)
          10 [⟨"a", "x", 1⟩, ⟨"b", "y", 2⟩, ⟨"c", "z", 3⟩]).selected.length = 1) :=
  ⟨by norm_num,
    (select_budget_bound (fun i => if i < 2 then some (2 : ℚ) else none) 10
      [⟨"a", "x", 1⟩, ⟨"b", "y", 2⟩, ⟨"c", "z", 3⟩] (by norm_num)).1⟩

/-- C8: per-comment failures never propagate: if every scanned comment's
synthesis fails the function returns two empty lists (it does not raise,
being total by construction with the failure branch continuing the loop);
the two returned lists always have equal length (no positional gap); and a
failed comment is skipped with the loop continuing at the next comment and
the next enumeration index, accumulators unchanged. -/
theorem select_skips_failures (oracle : ℕ → Option ℚ) (target : ℚ)
    (comments : List RedditComment) :
    ((∀ i, i < comments.length → oracle i = none) →
      (selectCommentsForDuration oracle target comments).selected = []
      ∧ (selectCommentsForDuration oracle target comments).mp3Paths = [])
    ∧ ((selectCommentsForDuration oracle target comments).selected.length =
        (selectCommentsForDuration oracle target comments).mp3Paths.length)
    ∧ (∀ (c : RedditComment) (cs : List RedditComment) (i : ℕ) (cum : ℚ)
        (sel : List RedditComment) (paths : List ℕ),
        oracle i = none →
        selectGo oracle target (c :: cs) i cum sel paths =
          selectGo oracle target cs (i + 1) cum sel paths) := by
  refine ⟨?_, selectGo_pair oracle target comments 0 0 [] [] rfl, ?_⟩
  · intro h
    have hall := selectGo_all_fail oracle target comments 0 0 [] []
      (fun j hj => by simpa using h j hj)
    simp only [selectCommentsForDuration, hall]
    exact ⟨trivial, trivial⟩
  · intro c cs i cum sel paths h
    simp only [selectGo, h]

/-- C8 witness: when the only comment's synthesis fails, both returned lists
are empty and no exception escapes. -/
theorem select_skips_failures_witness :
    (selectCommentsForDuration (fun _ => (none : Option ℚ)) 10
        [⟨"u0", "hello", 5⟩]).selected = []
    ∧ (selectCommentsForDuration (fun _ => (none : Option ℚ)) 10
        [⟨"u0", "hello", 5⟩]).mp3Paths = [] :=
  (select_skips_failures (fun _ => (none : Option ℚ)) 10
    [⟨"u0", "hello", 5⟩]).1 (fun _ _ => rfl)

/- Lemmas about the progress reports. -/

lemma reportsGo_chain (dur : ℚ) : ∀ (polls : List ℚ) (last : ℚ),
    List.Chain' (· ≤ ·) (last :: reportsGo dur last polls)
  | [], last => by simp [reportsGo]
  | s :: ss, last => by
    simp only [reportsGo]
    rw [List.chain'_cons]
    exact ⟨le_max_left _ _, reportsGo_chain dur ss _⟩

lemma reportsGo_bounds (dur : ℚ) : ∀ (polls : List ℚ) (last : ℚ),
    0 ≤ last → last ≤ 1 →
    ∀ r ∈ reportsGo dur last polls, 0 ≤ r ∧ r ≤ 1
  | [], _, _, _ => by simp [reportsGo]
  | s :: ss, last, h0, h1 => by
    have hp0 : 0 ≤ max last (min 1 (s / dur)) := le_trans h0 (le_max_left _ _)
    have hp1 : max last (min 1 (s / dur)) ≤ 1 := max_le h1 (min_le_left _ _)
    simp only [reportsGo, List.mem_cons]
    rintro r (rfl | hr)
    · exact ⟨hp0, hp1⟩
    · exact reportsGo_bounds dur ss _ hp0 hp1 r hr

lemma reportsGo_step (dur : ℚ) : ∀ (polls : List ℚ) (last : ℚ) (j : ℕ)
    (s r rprev : ℚ),
    polls[j]? = some s →
    (reportsGo dur last polls)[j]? = some r →
    (last :: reportsGo dur last polls)[j]? = some rprev →
    r = max rprev (min 1 (s / dur))
  | [], _, j, _, _, _ => by simp
  | s' :: ss, last, 0, s, r, rprev => by
    simp only [reportsGo, List.getElem?_cons_zero, Option.some.injEq]
    intro hs hr hprev
    rw [← hr, ← hs, ← hprev]
  | s' :: ss, last, j + 1, s, r, rprev => by
    simp only [reportsGo, List.getElem?_cons_succ]
    exact reportsGo_step dur ss _ j s r rprev

/-- C9: across any sequence of parsed poll values (even noisy or regressing
ones), the reported progress values are monotonically non-decreasing starting
from the initial 0, each lies in [0, 1], and each equals
min(1, elapsed / total_duration) clamped below by the previously reported
value; the divisor clamp max(0.001, total_duration) is the identity under the
hypothesis total_duration ≥ 0.001, which holds at every construction site in
the repository (both strategies pass total_len ≥ 0.1). -/
theorem progress_monotone_clamped (durationSeconds : ℚ) (polls : List ℚ)
    (hdur : 1/1000 ≤ durationSeconds) :
    List.Chain' (· ≤ ·) (0 :: progressReports durationSeconds polls)
    ∧ (∀ r ∈ progressReports durationSeconds polls, 0 ≤ r ∧ r ≤ 1)
    ∧ (∀ (j : ℕ) (s r rprev : ℚ), polls[j]? = some s →
        (progressReports durationSeconds polls)[j]? = some r →
        (0 :: progressReports durationSeconds polls)[j]? = some rprev →
        r = max rprev (min 1 (s / durationSeconds))) := by
  have hclamp : progressDuration durationSeconds = durationSeconds :=
    max_eq_right hdur
  refine ⟨?_, ?_, ?_⟩
  · simpa only [progressReports] using
      reportsGo_chain (progressDuration durationSeconds) polls 0
  · simpa only [progressReports] using
      reportsGo_bounds (progressDuration durationSeconds) polls 0 le_rfl
        zero_le_one
  · intro j s r rprev hs hr hprev
    rw [← hclamp]
    exact reportsGo_step (progressDuration durationSeconds) polls 0 j s r rprev
      hs hr hprev

/-- C9 witness: with total duration 10 and a noisy poll sequence that
regresses (1, 5, 2, 100), the reported values are still non-decreasing from
0 onward. -/
theorem progress_monotone_clamped_witness :
    (1/1000 : ℚ) ≤ 10
    ∧ List.Chain' (· ≤ ·) (0 :: progressReports 10 [1, 5, 2, 100]) :=
  ⟨by norm_num, (progress_monotone_clamped 10 [1, 5, 2, 100] (by norm_num)).1⟩

/-- C10 failing configuration, evaluated on the code: the factory call site
passes the keyword argument word_captions_filter to builder.render_video, but
render_video's parameter list does not contain it, so the call raises a
TypeError for an unexpected keyword argument and render_video never receives
(nor applies) any word-caption drawtext filter; no parameter of render_video
carries the caption track. -/
theorem word_captions_filter_not_accepted :
    "word_captions_filter" ∈ factoryRenderVideoKwargs
    ∧ "word_captions_filter" ∉ renderVideoParams := by
  constructor
  · simp [factoryRenderVideoKwargs]
  · simp [renderVideoParams]
